import Mathlib

/-!
Verification of the SPI accumulator / automatic-transfer subsystem of
wpilibc (frc::SPI, declared in wpilibc/src/main/native/include/frc/SPI.h).

The repository snapshot carries only the class declaration and its interface
documentation; the method bodies (SPI.cpp and the HAL it delegates to) are not
present.  Every operation below is therefore modelled from the specification's
description of the algorithm, as a shallow embedding: machine words are Nat
with explicit reductions mod 2^width, signed 64-bit quantities are Int,
floating-point statistics are Rat, and the background sampling task is an
explicit state-transition function applied once per tick.
-/

namespace FrcSPI

/-- Modelled from the spec: the decoder configuration passed to
SPI::InitAccumulator (validity mask, required valid value, data bit shift,
data bit width, signedness, endianness, transfer size in bytes).  The body of
InitAccumulator is not in the repository. -/
structure AccumulatorConfig where
  xferSize : Nat
  validMask : Nat
  validValue : Nat
  dataShift : Nat
  dataSize : Nat
  isSigned : Bool
  bigEndian : Bool
  deriving Repr, DecidableEq

/-- Modelled from the spec: reverse the byte order of a word of n bytes
(step 1 of the SampleDecoder contract, applied when the device is
big-endian). -/
def byteReverse : Nat → Nat → Nat
  | 0, _ => 0
  | n + 1, w => (w % 256) * 256 ^ n + byteReverse n (w / 256)

/-- Modelled from the spec: the raw transfer word brought to host byte order
(identity for little-endian devices). -/
def toHostOrder (cfg : AccumulatorConfig) (w : Nat) : Nat :=
  if cfg.bigEndian then byteReverse cfg.xferSize w else w

/-- Modelled from the spec: extract the width-bit field starting at bit
offset dataShift (step 3 of the SampleDecoder contract). -/
def extractField (cfg : AccumulatorConfig) (w : Nat) : Nat :=
  (w >>> cfg.dataShift) % 2 ^ cfg.dataSize

/-- Modelled from the spec: two's-complement sign extension of a width-bit
field — the top extracted bit determines the sign. -/
def signExtend (width : Nat) (field : Nat) : Int :=
  if field < 2 ^ (width - 1) then (field : Int) else (field : Int) - 2 ^ width

/-- Modelled from the spec: the SampleDecoder — a pure function from a raw
unsigned transfer word and the InitAccumulator configuration to an optional
signed sample.  Byte-reverses if big-endian, checks (word and mask) against
validValue, rejects on mismatch, otherwise extracts the data field and
sign-extends it when the field is signed.  The decoder body (part of the
accumulator engine behind InitAccumulator) is not in the repository. -/
def decode (cfg : AccumulatorConfig) (w : Nat) : Option Int :=
  let h := toHostOrder cfg w
  if h &&& cfg.validMask = cfg.validValue then
    let field := extractField cfg h
    some (if cfg.isSigned then signExtend cfg.dataSize field else (field : Int))
  else
    none

/-- An example configuration close to the spec's test scenario: a signed
14-bit data field at bit offset 2 of a 2-byte little-endian word, with the
two low status bits required to be zero for the word to be valid. -/
def exCfg : AccumulatorConfig :=
  { xferSize := 2, validMask := 0x0003, validValue := 0, dataShift := 2,
    dataSize := 14, isSigned := true, bigEndian := false }

/-- Modelled from the spec: the tunable accumulator parameters, set by
SetAccumulatorCenter, SetAccumulatorDeadband and
SetAccumulatorIntegratedCenter (whose bodies are not in the repository). -/
structure AccumulatorParams where
  center : Int
  deadband : Int
  integratedCenter : Rat
  deriving Repr, DecidableEq

/-- Modelled from the spec: the accumulator statistics mutated by the
background sampling task — last decoded value, running count, running raw
sum, running integrated sum, and the timestamp of the previous valid sample
(none right after a reset, making the next dt zero). -/
structure AccumulatorState where
  lastValue : Int
  count : Int
  sum : Int
  integratedSum : Rat
  lastTimestamp : Option Rat
  deriving Repr, DecidableEq

/-- Modelled from the spec: dt is the time since the previous valid sample;
the first sample after a reset has dt = 0. -/
def dtOf (st : AccumulatorState) (t : Rat) : Rat :=
  match st.lastTimestamp with
  | none => 0
  | some t0 => t - t0

/-- Modelled from the spec: one tick of the accumulator's background task
(the body behind InitAccumulator is not in the repository).  The received
word is decoded; on a valid sample the state is updated under the
centering/deadband rules (the deadband gates only the raw sum, never the
integrated path); on an invalid sample the state is left untouched. -/
def accumTick (cfg : AccumulatorConfig) (p : AccumulatorParams)
    (st : AccumulatorState) (w : Nat) (t : Rat) : AccumulatorState :=
  match decode cfg w with
  | none => st
  | some sample =>
      let adjusted := sample - p.center
      let contribution := if |adjusted| < p.deadband then 0 else adjusted
      { lastValue := sample
        count := st.count + 1
        sum := st.sum + contribution
        integratedSum :=
          st.integratedSum + ((sample : Rat) - p.integratedCenter) * dtOf st t
        lastTimestamp := some t }

/-- Modelled from the spec: ResetAccumulator zeroes count, sum,
integratedSum and lastValue (the body is not in the repository); clearing
the previous-sample timestamp makes the next valid sample's dt zero. -/
def ResetAccumulator (_st : AccumulatorState) : AccumulatorState :=
  { lastValue := 0, count := 0, sum := 0, integratedSum := 0,
    lastTimestamp := none }

/-- The accumulator state right after InitAccumulator. -/
def initialAccumState : AccumulatorState :=
  { lastValue := 0, count := 0, sum := 0, integratedSum := 0,
    lastTimestamp := none }

/-- The accumulator parameters right after InitAccumulator (no centering,
no deadband). -/
def initialAccumParams : AccumulatorParams :=
  { center := 0, deadband := 0, integratedCenter := 0 }

/-- Modelled from the spec: GetAccumulatorLastValue returns the last decoded
value. -/
def GetAccumulatorLastValue (st : AccumulatorState) : Int := st.lastValue

/-- Modelled from the spec: GetAccumulatorValue returns the accumulated sum
since the last reset. -/
def GetAccumulatorValue (st : AccumulatorState) : Int := st.sum

/-- Modelled from the spec: GetAccumulatorCount returns the number of
accumulated samples since the last reset. -/
def GetAccumulatorCount (st : AccumulatorState) : Int := st.count

/-- Modelled from the spec: GetAccumulatorAverage returns sum / count as
floating point, and 0 when count is 0 (body not in the repository). -/
def GetAccumulatorAverage (st : AccumulatorState) : Rat :=
  if st.count = 0 then 0 else (st.sum : Rat) / (st.count : Rat)

/-- Modelled from the spec: GetAccumulatorIntegratedValue returns the sum of
each value times the time between values. -/
def GetAccumulatorIntegratedValue (st : AccumulatorState) : Rat :=
  st.integratedSum

/-- Modelled from the spec: GetAccumulatorIntegratedAverage returns
integratedSum / count, and 0 when count is 0 (body not in the
repository). -/
def GetAccumulatorIntegratedAverage (st : AccumulatorState) : Rat :=
  if st.count = 0 then 0 else st.integratedSum / (st.count : Rat)

/-- Modelled from the spec: the calls a client or the background task can
make against a running accumulator — a tick with a received word and its
timestamp, a reset, and the three parameter setters. -/
inductive AccumEvent where
  | tick (w : Nat) (t : Rat)
  | reset
  | setCenter (c : Int)
  | setDeadband (d : Int)
  | setIntegratedCenter (c : Rat)

/-- Modelled from the spec: apply one accumulator event to the
(parameters, statistics) pair. -/
def accumStep (cfg : AccumulatorConfig) :
    AccumulatorParams × AccumulatorState → AccumEvent →
    AccumulatorParams × AccumulatorState
  | (p, st), .tick w t => (p, accumTick cfg p st w t)
  | (p, st), .reset => (p, ResetAccumulator st)
  | (p, st), .setCenter c => ({ p with center := c }, st)
  | (p, st), .setDeadband d => ({ p with deadband := d }, st)
  | (p, st), .setIntegratedCenter c => ({ p with integratedCenter := c }, st)

/-- Modelled from the spec: the accumulator state reached from
InitAccumulator by a sequence of ticks and calls. -/
def accumRun (cfg : AccumulatorConfig) (es : List AccumEvent) :
    AccumulatorParams × AccumulatorState :=
  es.foldl (accumStep cfg) (initialAccumParams, initialAccumState)

/-- Modelled from the spec: the automatic-transfer engine's bounded receive
ring buffer, allocated by InitAuto — a fixed capacity in words, the stored
words in FIFO production order, and the dropped-word counter reported by
GetAutoDroppedCount (the engine body is not in the repository). -/
structure AutoBuffer where
  capacity : Nat
  data : List Nat
  dropped : Nat
  deriving Repr, DecidableEq

/-- Modelled from the spec: store one produced word into the ring buffer;
when the buffer is full the word is dropped and the dropped counter is
incremented — the engine never blocks and never overwrites stored words. -/
def enqueueWord (b : AutoBuffer) (w : Nat) : AutoBuffer :=
  if b.data.length < b.capacity then { b with data := b.data ++ [w] }
  else { b with dropped := b.dropped + 1 }

/-- Modelled from the spec: one firing of the automatic engine appends its
words (a timestamp word followed by one word per received byte) to the ring
buffer one at a time. -/
def autoFire (b : AutoBuffer) (ws : List Nat) : AutoBuffer :=
  ws.foldl enqueueWord b

/-- Modelled from the spec: the engine trace — the ring buffer together with
every word delivered to readers so far (in dequeue order) and, as a history
variable, every word the buffer actually stored so far (in production
order). -/
structure AutoTrace where
  buf : AutoBuffer
  output : List Nat
  accepted : List Nat
  deriving Repr, DecidableEq

/-- Modelled from the spec: one produced word at the trace level — the
buffer behaves exactly as enqueueWord, and the history records the word as
accepted precisely when the buffer stored it. -/
def enqueueTrace (tr : AutoTrace) (w : Nat) : AutoTrace :=
  if tr.buf.data.length < tr.buf.capacity then
    { tr with
      buf := { tr.buf with data := tr.buf.data ++ [w] }
      accepted := tr.accepted ++ [w] }
  else
    { tr with buf := { tr.buf with dropped := tr.buf.dropped + 1 } }

/-- Modelled from the spec: dequeue n words from the front of the ring
buffer into the reader's output (the drain performed by
ReadAutoReceivedData). -/
def dequeueTrace (tr : AutoTrace) (n : Nat) : AutoTrace :=
  { tr with
    buf := { tr.buf with data := tr.buf.data.drop n }
    output := tr.output ++ tr.buf.data.take n }

/-- Modelled from the spec: the operations of the running engine — a firing
producing a group of words, and a reader dequeuing up to n words. -/
inductive AutoOp where
  | fire (ws : List Nat)
  | read (n : Nat)

/-- Modelled from the spec: apply one engine operation to the trace. -/
def autoStep (tr : AutoTrace) : AutoOp → AutoTrace
  | .fire ws => ws.foldl enqueueTrace tr
  | .read n => dequeueTrace tr n

/-- The fresh trace right after InitAuto with the given buffer capacity. -/
def initAutoTrace (c : Nat) : AutoTrace :=
  { buf := { capacity := c, data := [], dropped := 0 }, output := [],
    accepted := [] }

/-- Modelled from the spec: the engine trace after a sequence of firings and
reads from a fresh buffer. -/
def autoRun (c : Nat) (ops : List AutoOp) : AutoTrace :=
  ops.foldl autoStep (initAutoTrace c)

/-- The total number of words produced by a sequence of engine
operations. -/
def totalFired : List AutoOp → Nat
  | [] => 0
  | AutoOp.fire ws :: ops => ws.length + totalFired ops
  | AutoOp.read _ :: ops => totalFired ops

/-- The engine-trace invariant: capacity is fixed, the buffer never exceeds
it, the words stored so far are exactly the delivered words followed by the
words still buffered (so FIFO order is preserved end to end), and every
produced word was either stored or counted as dropped. -/
def AutoInv (c fired : Nat) (tr : AutoTrace) : Prop :=
  tr.buf.capacity = c ∧ tr.buf.data.length ≤ c ∧
  tr.output ++ tr.buf.data = tr.accepted ∧
  tr.buf.dropped + tr.accepted.length = fired

/-- Modelled from the spec: ReadAutoReceivedData drains the ring buffer into
the caller's buffer (its body is not in the repository).  Real time is
abstracted: the arrivals argument lists the words the engine produces before
the timeout elapses, so the words obtainable within the wait are the
buffered words followed by the arrivals.  Returns the number of requested
words still pending, the words read, and the buffer afterwards; a request
for 0 words returns immediately with the currently available count. -/
def ReadAutoReceivedData (b : AutoBuffer) (numToRead : Nat)
    (arrivals : List Nat) : Nat × List Nat × AutoBuffer :=
  if numToRead = 0 then (b.data.length, [], b)
  else
    ((numToRead - ((b.data ++ arrivals).take numToRead).length,
      (b.data ++ arrivals).take numToRead,
      { b with data := (b.data ++ arrivals).drop numToRead }))

/-- Modelled from the spec: the error kind reported synchronously by an
offending configuration call. -/
inductive ConfigError where
  | configurationError
  deriving Repr, DecidableEq

/-- Modelled from the spec: the automatic engine's transmit pattern — up to
16 bytes of fixed transmit data plus a trailing zero-fill count. -/
structure AutoPattern where
  dataToSend : List Nat
  zeroSize : Nat
  deriving Repr, DecidableEq

/-- Modelled from the spec: the automatic engine's configuration visible to
SetAutoTransmitData — the currently armed transmit pattern, if any. -/
structure AutoEngineConfig where
  pattern : Option AutoPattern
  deriving Repr, DecidableEq

/-- Modelled from the spec: SetAutoTransmitData (body not in the repository)
validates that the payload is at most 16 bytes and the zero-fill count at
most 127; on violation it reports a configuration error and leaves the
armed pattern unchanged. -/
def SetAutoTransmitData (e : AutoEngineConfig) (dataToSend : List Nat)
    (zeroSize : Nat) : AutoEngineConfig × Option ConfigError :=
  if dataToSend.length ≤ 16 ∧ zeroSize ≤ 127 then
    ({ e with pattern := some { dataToSend := dataToSend, zeroSize := zeroSize } },
      none)
  else
    (e, some ConfigError.configurationError)

/-- Modelled from the spec: the error reported by SPI::Read when there is
nothing to read and no transfer to wait for. -/
inductive SpiError where
  | readNoData
  deriving Repr, DecidableEq

/-- Modelled from the spec: the manual-transfer state of a port — the
receive FIFO, the transmit queue, whether a transfer is currently active,
and a count of transfers initiated so far. -/
structure SpiPortState where
  receiveFifo : List Nat
  transmitQueue : List Nat
  activeTransfer : Bool
  transfersInitiated : Nat
  deriving Repr, DecidableEq

/-- Modelled from the spec: the body of SPI::Read is not in the repository;
modelled from its interface documentation.  busExchange stands for the
blocking hardware exchange, returning the bytes received while its argument
is transmitted.  When initiate is true the call pushes size zero bytes into
the transmit buffer and initiates a transfer; when initiate is false the
data must already be in the receive FIFO from a previous write, and with an
empty FIFO and no active transfer the call errors instead of blocking
indefinitely or fabricating data. -/
def Read (busExchange : List Nat → List Nat) (initiate : Bool) (size : Nat)
    (st : SpiPortState) : Except SpiError (List Nat × SpiPortState) :=
  if initiate then
    Except.ok (busExchange (List.replicate size 0),
      { st with
        transmitQueue := st.transmitQueue ++ List.replicate size 0
        transfersInitiated := st.transfersInitiated + 1 })
  else if st.receiveFifo = [] ∧ st.activeTransfer = false then
    Except.error SpiError.readNoData
  else
    Except.ok (st.receiveFifo.take size,
      { st with receiveFifo := st.receiveFifo.drop size })

/-- The extracted field is always below 2 ^ dataSize. -/
theorem extractField_lt (cfg : AccumulatorConfig) (w : Nat) :
    extractField cfg w < 2 ^ cfg.dataSize :=
  Nat.mod_lt _ (Nat.pos_pow_of_pos _ (by norm_num))

theorem enqueueTrace_inv {c fired : Nat} {tr : AutoTrace}
    (h : AutoInv c fired tr) (w : Nat) :
    AutoInv c (fired + 1) (enqueueTrace tr w) := by
  obtain ⟨hc, hlen, hfifo, hcount⟩ := h
  unfold enqueueTrace
  split
  · rename_i hroom
    refine ⟨hc, ?_, ?_, ?_⟩
    · simpa using Nat.succ_le_of_lt (hc ▸ hroom)
    · simp [← hfifo]
    · simp only [List.length_append, List.length_cons, List.length_nil]
      omega
  · exact ⟨hc, hlen, hfifo, by simpa using by omega⟩

theorem fireFold_inv {c fired : Nat} {tr : AutoTrace}
    (h : AutoInv c fired tr) (ws : List Nat) :
    AutoInv c (fired + ws.length) (ws.foldl enqueueTrace tr) := by
  induction ws generalizing tr fired with
  | nil => simpa using h
  | cons w ws ih =>
      have := ih (enqueueTrace_inv h w)
      simpa [Nat.add_comm, Nat.add_assoc, Nat.add_left_comm] using this

theorem dequeueTrace_inv {c fired : Nat} {tr : AutoTrace}
    (h : AutoInv c fired tr) (n : Nat) :
    AutoInv c fired (dequeueTrace tr n) := by
  obtain ⟨hc, hlen, hfifo, hcount⟩ := h
  refine ⟨hc, ?_, ?_, hcount⟩
  · calc (tr.buf.data.drop n).length ≤ tr.buf.data.length :=
        by simp
      _ ≤ c := hlen
  · show (tr.output ++ tr.buf.data.take n) ++ tr.buf.data.drop n = tr.accepted
    rw [List.append_assoc, List.take_append_drop]
    exact hfifo

theorem autoRun_inv (c : Nat) (ops : List AutoOp) :
    AutoInv c (totalFired ops) (autoRun c ops) := by
  suffices h : ∀ (tr : AutoTrace) (fired : Nat), AutoInv c fired tr →
      AutoInv c (fired + totalFired ops) (ops.foldl autoStep tr) by
    have h0 : AutoInv c 0 (initAutoTrace c) := by
      refine ⟨rfl, by simp [initAutoTrace], rfl, rfl⟩
    simpa using h (initAutoTrace c) 0 h0
  induction ops with
  | nil => intro tr fired h; simpa [totalFired] using h
  | cons op ops ih =>
      intro tr fired h
      cases op with
      | fire ws =>
          have := ih _ _ (fireFold_inv h ws)
          simp only [totalFired, List.foldl_cons, autoStep]
          have harith : fired + ws.length + totalFired ops =
              fired + (ws.length + totalFired ops) := by omega
          rw [← harith]
          exact this
      | read n =>
          have := ih _ _ (dequeueTrace_inv h n)
          simpa [totalFired, autoStep] using this

/-- A single full firing against a buffer with room r stores exactly the
first r words and drops the remainder. -/
theorem autoFire_take_drop (b : AutoBuffer) (ws : List Nat)
    (h : b.data.length ≤ b.capacity) :
    (autoFire b ws).data = b.data ++ ws.take (b.capacity - b.data.length) ∧
    (autoFire b ws).dropped =
      b.dropped + (ws.length - (b.capacity - b.data.length)) := by
  induction ws generalizing b with
  | nil => simp [autoFire]
  | cons w ws ih =>
      by_cases hroom : b.data.length < b.capacity
      · obtain ⟨hd, hc⟩ := ih { b with data := b.data ++ [w] }
          (by simpa using Nat.succ_le_of_lt hroom)
        have hstep : autoFire b (w :: ws) =
            autoFire { b with data := b.data ++ [w] } ws := by
          unfold autoFire
          rw [List.foldl_cons]
          congr 1
          exact if_pos hroom
        constructor
        · rw [hstep, hd]
          simp only [List.append_assoc, List.singleton_append,
            List.length_append, List.length_cons, List.length_nil]
          congr 1
          rw [show b.capacity - b.data.length =
              (b.capacity - (b.data.length + (0 + 1))) + 1 from by omega,
            List.take_succ_cons]
        · rw [hstep, hc]
          simp only [List.length_append, List.length_cons, List.length_nil]
          omega
      · obtain ⟨hd, hc⟩ := ih { b with dropped := b.dropped + 1 } h
        have hstep : autoFire b (w :: ws) =
            autoFire { b with dropped := b.dropped + 1 } ws := by
          unfold autoFire
          rw [List.foldl_cons]
          congr 1
          exact if_neg hroom
        have heq : b.data.length = b.capacity := by omega
        constructor
        · rw [hstep, hd]
          simp [heq]
        · rw [hstep, hc]
          simp only [List.length_cons]
          omega

/-- C1: for every decoder configuration and raw word, if the host-order word
masked by validMask equals validValue the decoder returns some value v that
is exactly the width-bit field at offset dataShift interpreted by
two's complement when signed (v is congruent to the field mod 2 ^ width and
lies in the signed width-bit range) and is the zero-extended field when
unsigned; and if the masked word differs from validValue the decoder returns
none. -/
theorem C1_sampleDecoder (cfg : AccumulatorConfig) (w : Nat)
    (hw : 1 ≤ cfg.dataSize) :
    (toHostOrder cfg w &&& cfg.validMask = cfg.validValue →
      ∃ v, decode cfg w = some v ∧
        v % ((2 : Int) ^ cfg.dataSize) =
          (extractField cfg (toHostOrder cfg w) : Int) ∧
        (cfg.isSigned = true →
          -(2 : Int) ^ (cfg.dataSize - 1) ≤ v ∧ v < 2 ^ (cfg.dataSize - 1)) ∧
        (cfg.isSigned = false →
          v = (extractField cfg (toHostOrder cfg w) : Int))) ∧
    (toHostOrder cfg w &&& cfg.validMask ≠ cfg.validValue →
      decode cfg w = none) := by
  constructor
  · intro hvalid
    have hfield := extractField_lt cfg (toHostOrder cfg w)
    set field := extractField cfg (toHostOrder cfg w) with hf
    have hfieldZ : (field : Int) < (2 : Int) ^ cfg.dataSize := by
      exact_mod_cast hfield
    have hpow : (2 : Int) ^ cfg.dataSize =
        2 * (2 : Int) ^ (cfg.dataSize - 1) := by
      rw [← pow_succ']
      congr 1
      omega
    refine ⟨if cfg.isSigned then signExtend cfg.dataSize field else (field : Int),
      ?_, ?_, ?_, ?_⟩
    · simp only [decode, hvalid, if_pos]
    · rcases Bool.eq_false_or_eq_true cfg.isSigned with hs | hs
      · rw [if_pos hs]
        unfold signExtend
        split
        · exact Int.emod_eq_of_lt (by positivity) hfieldZ
        · have h2 : (field : Int) - 2 ^ cfg.dataSize =
              (field : Int) + 2 ^ cfg.dataSize * (-1) := by ring
          rw [h2, Int.add_mul_emod_self_left]
          exact Int.emod_eq_of_lt (by positivity) hfieldZ
      · rw [if_neg (by simp [hs])]
        exact Int.emod_eq_of_lt (by positivity) hfieldZ
    · intro hs
      rw [if_pos hs]
      unfold signExtend
      split
      · rename_i hlt
        have hnn : (0 : Int) ≤ (field : Int) := by positivity
        constructor
        · have : (0 : Int) ≤ (2 : Int) ^ (cfg.dataSize - 1) := by positivity
          linarith
        · exact_mod_cast hlt
      · rename_i hge
        have hgeZ : (2 : Int) ^ (cfg.dataSize - 1) ≤ (field : Int) := by
          have := Nat.le_of_not_lt hge
          calc (2 : Int) ^ (cfg.dataSize - 1)
              = ((2 ^ (cfg.dataSize - 1) : Nat) : Int) := by push_cast; ring
            _ ≤ (field : Int) := by exact_mod_cast this
        constructor
        · linarith [hpow]
        · have : (0 : Int) < (2 : Int) ^ (cfg.dataSize - 1) := by positivity
          linarith
    · intro hs
      rw [if_neg (by simp [hs])]
  · intro hinvalid
    simp only [decode]
    exact if_neg hinvalid

/-- Witness for C1 at the spec's scenario: word 0x0004 under exCfg is valid
and decodes to a value congruent to field 1 in the signed 14-bit range, and
word 0xFFFF fails the validity check and decodes to none. -/
theorem C1_sampleDecoder_witness :
    (∃ v, decode exCfg 0x0004 = some v ∧
      v % ((2 : Int) ^ exCfg.dataSize) =
        (extractField exCfg (toHostOrder exCfg 0x0004) : Int) ∧
      (exCfg.isSigned = true →
        -(2 : Int) ^ (exCfg.dataSize - 1) ≤ v ∧ v < 2 ^ (exCfg.dataSize - 1)) ∧
      (exCfg.isSigned = false →
        v = (extractField exCfg (toHostOrder exCfg 0x0004) : Int))) ∧
    decode exCfg 0xFFFF = none :=
  ⟨(C1_sampleDecoder exCfg 0x0004 (by decide)).1 (by decide),
   (C1_sampleDecoder exCfg 0xFFFF (by decide)).2 (by decide)⟩

/-- C2: a tick on a valid decoded sample increments count by exactly 1, sets
lastValue to the sample, adds to sum the centered value gated by the
deadband (zero contribution when the absolute centered value is below the
deadband, the centered value itself otherwise), and adds
(sample - integratedCenter) * dt to integratedSum regardless of the
deadband. -/
theorem C2_validTickUpdate (cfg : AccumulatorConfig) (p : AccumulatorParams)
    (st : AccumulatorState) (w : Nat) (t : Rat) (sample : Int)
    (h : decode cfg w = some sample) :
    (accumTick cfg p st w t).count = st.count + 1 ∧
    (accumTick cfg p st w t).lastValue = sample ∧
    (accumTick cfg p st w t).sum = st.sum +
      (if |sample - p.center| < p.deadband then 0 else sample - p.center) ∧
    (accumTick cfg p st w t).integratedSum = st.integratedSum +
      ((sample : Rat) - p.integratedCenter) * dtOf st t := by
  unfold accumTick
  rw [h]
  exact ⟨rfl, rfl, rfl, rfl⟩

/-- Witness for C2: under the example configuration, word 0x0008 decodes to
sample 2 (the deadband is 0, the centers are 0, dt is 1 - 1/2) and a tick
from a concrete mid-run state updates each statistic as stated. -/
theorem C2_validTickUpdate_witness :
    (accumTick exCfg initialAccumParams
        ⟨5, 3, 7, 2, some (1/2)⟩ 0x0008 1).count = (3 : Int) + 1 ∧
    (accumTick exCfg initialAccumParams
        ⟨5, 3, 7, 2, some (1/2)⟩ 0x0008 1).lastValue = 2 ∧
    (accumTick exCfg initialAccumParams
        ⟨5, 3, 7, 2, some (1/2)⟩ 0x0008 1).sum = (7 : Int) +
      (if |(2 : Int) - initialAccumParams.center| < initialAccumParams.deadband
       then 0 else 2 - initialAccumParams.center) ∧
    (accumTick exCfg initialAccumParams
        ⟨5, 3, 7, 2, some (1/2)⟩ 0x0008 1).integratedSum = (2 : Rat) +
      ((2 : Int) - initialAccumParams.integratedCenter) *
        dtOf ⟨5, 3, 7, 2, some (1/2)⟩ 1 :=
  C2_validTickUpdate exCfg initialAccumParams ⟨5, 3, 7, 2, some (1/2)⟩
    0x0008 1 2 (by decide)

/-- C3: after any event sequence followed by a ResetAccumulator, count, sum,
integratedSum and lastValue are all zero, and the very next tick — in
particular the first valid sample after the reset — contributes 0 to
integratedSum because its dt is 0. -/
theorem C3_resetZeroesState (cfg : AccumulatorConfig) (es : List AccumEvent)
    (w : Nat) (t : Rat) :
    (accumRun cfg (es ++ [AccumEvent.reset])).2.count = 0 ∧
    (accumRun cfg (es ++ [AccumEvent.reset])).2.sum = 0 ∧
    (accumRun cfg (es ++ [AccumEvent.reset])).2.integratedSum = 0 ∧
    (accumRun cfg (es ++ [AccumEvent.reset])).2.lastValue = 0 ∧
    (accumTick cfg (accumRun cfg (es ++ [AccumEvent.reset])).1
        (accumRun cfg (es ++ [AccumEvent.reset])).2 w t).integratedSum = 0 := by
  have hrun : (accumRun cfg (es ++ [AccumEvent.reset])).2 =
      ResetAccumulator (accumRun cfg es).2 := by
    unfold accumRun
    rw [List.foldl_append]
    rfl
  refine ⟨by rw [hrun]; rfl, by rw [hrun]; rfl, by rw [hrun]; rfl,
    by rw [hrun]; rfl, ?_⟩
  rw [hrun]
  unfold accumTick
  cases hdec : decode cfg w with
  | none => rfl
  | some sample =>
      show (ResetAccumulator (accumRun cfg es).2).integratedSum +
        ((sample : Rat) - _) * dtOf (ResetAccumulator (accumRun cfg es).2) t = 0
      show (0 : Rat) + ((sample : Rat) -
        (accumRun cfg (es ++ [AccumEvent.reset])).1.integratedCenter) * 0 = 0
      rw [mul_zero, add_zero]

/-- C4: GetAccumulatorAverage is the true quotient sum / count whenever
count is nonzero (multiplying it back by count recovers the sum) and is 0
when count is 0; GetAccumulatorIntegratedAverage behaves the same way for
integratedSum. -/
theorem C4_averageZeroCountSafe (st : AccumulatorState) :
    (st.count = 0 →
      GetAccumulatorAverage st = 0 ∧ GetAccumulatorIntegratedAverage st = 0) ∧
    (st.count ≠ 0 →
      GetAccumulatorAverage st * (st.count : Rat) = (st.sum : Rat) ∧
      GetAccumulatorIntegratedAverage st * (st.count : Rat) =
        st.integratedSum) := by
  constructor
  · intro h0
    exact ⟨by simp [GetAccumulatorAverage, h0],
      by simp [GetAccumulatorIntegratedAverage, h0]⟩
  · intro hne
    have hcast : (st.count : Rat) ≠ 0 := Int.cast_ne_zero.mpr hne
    constructor
    · rw [GetAccumulatorAverage, if_neg hne, div_mul_cancel₀ _ hcast]
    · rw [GetAccumulatorIntegratedAverage, if_neg hne,
        div_mul_cancel₀ _ hcast]

/-- Witness for C4 at concrete states: a state with count 0 yields average
0, and a state with count 2 and sum 10 yields an average that multiplied by
the count gives back the sum. -/
theorem C4_averageZeroCountSafe_witness :
    (GetAccumulatorAverage ⟨0, 0, 10, 3, none⟩ = 0 ∧
      GetAccumulatorIntegratedAverage ⟨0, 0, 10, 3, none⟩ = 0) ∧
    (GetAccumulatorAverage ⟨0, 2, 10, 3, none⟩ *
        ((⟨0, 2, 10, 3, none⟩ : AccumulatorState).count : Rat) = (10 : Rat) ∧
      GetAccumulatorIntegratedAverage ⟨0, 2, 10, 3, none⟩ *
        ((⟨0, 2, 10, 3, none⟩ : AccumulatorState).count : Rat) = (3 : Rat)) :=
  ⟨(C4_averageZeroCountSafe ⟨0, 0, 10, 3, none⟩).1 (by decide),
   (C4_averageZeroCountSafe ⟨0, 2, 10, 3, none⟩).2 (by decide)⟩

/-- C6: a tick whose received word fails the validity check leaves the whole
accumulator state unchanged — in particular count, sum, integratedSum and
lastValue — so every GetAccumulator* call observes exactly what it observed
before the skipped tick, and no error surfaces. -/
theorem C6_invalidTickSkipped (cfg : AccumulatorConfig)
    (p : AccumulatorParams) (st : AccumulatorState) (w : Nat) (t : Rat)
    (h : decode cfg w = none) :
    accumTick cfg p st w t = st ∧
    GetAccumulatorCount (accumTick cfg p st w t) = GetAccumulatorCount st ∧
    GetAccumulatorValue (accumTick cfg p st w t) = GetAccumulatorValue st ∧
    GetAccumulatorIntegratedValue (accumTick cfg p st w t) =
      GetAccumulatorIntegratedValue st ∧
    GetAccumulatorLastValue (accumTick cfg p st w t) =
      GetAccumulatorLastValue st ∧
    GetAccumulatorAverage (accumTick cfg p st w t) =
      GetAccumulatorAverage st := by
  have hskip : accumTick cfg p st w t = st := by
    unfold accumTick
    rw [h]
  exact ⟨hskip, by rw [hskip], by rw [hskip], by rw [hskip], by rw [hskip],
    by rw [hskip]⟩

/-- Witness for C6: under the example configuration the word 0xFFFF fails
the validity check (low bits 0x3 are nonzero) and a tick on it from a
concrete state changes nothing. -/
theorem C6_invalidTickSkipped_witness :
    accumTick exCfg initialAccumParams ⟨5, 3, 7, 2, some (1/2)⟩ 0xFFFF 9 =
      ⟨5, 3, 7, 2, some (1/2)⟩ ∧
    GetAccumulatorCount
        (accumTick exCfg initialAccumParams ⟨5, 3, 7, 2, some (1/2)⟩ 0xFFFF 9) =
      GetAccumulatorCount ⟨5, 3, 7, 2, some (1/2)⟩ ∧
    GetAccumulatorValue
        (accumTick exCfg initialAccumParams ⟨5, 3, 7, 2, some (1/2)⟩ 0xFFFF 9) =
      GetAccumulatorValue ⟨5, 3, 7, 2, some (1/2)⟩ ∧
    GetAccumulatorIntegratedValue
        (accumTick exCfg initialAccumParams ⟨5, 3, 7, 2, some (1/2)⟩ 0xFFFF 9) =
      GetAccumulatorIntegratedValue ⟨5, 3, 7, 2, some (1/2)⟩ ∧
    GetAccumulatorLastValue
        (accumTick exCfg initialAccumParams ⟨5, 3, 7, 2, some (1/2)⟩ 0xFFFF 9) =
      GetAccumulatorLastValue ⟨5, 3, 7, 2, some (1/2)⟩ ∧
    GetAccumulatorAverage
        (accumTick exCfg initialAccumParams ⟨5, 3, 7, 2, some (1/2)⟩ 0xFFFF 9) =
      GetAccumulatorAverage ⟨5, 3, 7, 2, some (1/2)⟩ :=
  C6_invalidTickSkipped exCfg initialAccumParams ⟨5, 3, 7, 2, some (1/2)⟩
    0xFFFF 9 (by decide)

/-- C7: over any sequence of firings and reads against a fresh ring buffer
of capacity c, the buffer never holds more than c words (a full buffer drops
incoming words rather than overwriting stored ones), the dropped count plus
the number of stored words equals the total number of words produced (the
counter rises by exactly the words that could not be stored), and the words
delivered to readers followed by the words still buffered are exactly the
stored words in production order (every stored word is dequeued in FIFO
order). -/
theorem C7_ringBufferDropFifo (c : Nat) (ops : List AutoOp) :
    (autoRun c ops).buf.data.length ≤ c ∧
    (autoRun c ops).buf.dropped + (autoRun c ops).accepted.length =
      totalFired ops ∧
    (autoRun c ops).output ++ (autoRun c ops).buf.data =
      (autoRun c ops).accepted ∧
    (∃ rest, (autoRun c ops).accepted = (autoRun c ops).output ++ rest) := by
  obtain ⟨_, hlen, hfifo, hcount⟩ := autoRun_inv c ops
  exact ⟨hlen, hcount, hfifo, ⟨(autoRun c ops).buf.data, hfifo.symm⟩⟩

/-- C8: a read of 0 words returns immediately with the currently available
word count and leaves the buffer untouched; a read of n > 0 words returns
the number of requested words still pending — 0 exactly when all n words
could be dequeued before the timeout (the buffered words plus the words
arriving within the wait cover the request), and a positive value exactly
when the timeout expired with a partial or empty read. -/
theorem C8_readAutoPendingSemantics (b : AutoBuffer) (n : Nat)
    (arrivals : List Nat) :
    ((ReadAutoReceivedData b 0 arrivals).1 = b.data.length ∧
      (ReadAutoReceivedData b 0 arrivals).2.2 = b) ∧
    (n ≠ 0 →
      ((ReadAutoReceivedData b n arrivals).1 = 0 ↔
        n ≤ b.data.length + arrivals.length) ∧
      (0 < (ReadAutoReceivedData b n arrivals).1 ↔
        (ReadAutoReceivedData b n arrivals).2.1.length < n) ∧
      (ReadAutoReceivedData b n arrivals).2.1.length =
        min n (b.data.length + arrivals.length) ∧
      (ReadAutoReceivedData b n arrivals).1 =
        n - (ReadAutoReceivedData b n arrivals).2.1.length) := by
  constructor
  · exact ⟨rfl, rfl⟩
  · intro hn
    unfold ReadAutoReceivedData
    rw [if_neg hn]
    refine ⟨?_, ?_, ?_, ?_⟩ <;>
      simp only [List.length_take, List.length_append] <;> omega

/-- Witness for C8: with 2 words buffered in a capacity-4 buffer and 1 word
arriving before the timeout, requesting 5 words reads 3 and reports 2 still
pending (a positive remainder for a partial read). -/
theorem C8_readAutoPendingSemantics_witness :
    ((ReadAutoReceivedData ⟨4, [10, 11], 0⟩ 0 [12]).1 =
        (⟨4, [10, 11], 0⟩ : AutoBuffer).data.length ∧
      (ReadAutoReceivedData ⟨4, [10, 11], 0⟩ 0 [12]).2.2 = ⟨4, [10, 11], 0⟩) ∧
    (((ReadAutoReceivedData ⟨4, [10, 11], 0⟩ 5 [12]).1 = 0 ↔
        5 ≤ (⟨4, [10, 11], 0⟩ : AutoBuffer).data.length + [12].length) ∧
      (0 < (ReadAutoReceivedData ⟨4, [10, 11], 0⟩ 5 [12]).1 ↔
        (ReadAutoReceivedData ⟨4, [10, 11], 0⟩ 5 [12]).2.1.length < 5) ∧
      (ReadAutoReceivedData ⟨4, [10, 11], 0⟩ 5 [12]).2.1.length =
        min 5 ((⟨4, [10, 11], 0⟩ : AutoBuffer).data.length + [12].length) ∧
      (ReadAutoReceivedData ⟨4, [10, 11], 0⟩ 5 [12]).1 =
        5 - (ReadAutoReceivedData ⟨4, [10, 11], 0⟩ 5 [12]).2.1.length) :=
  ⟨(C8_readAutoPendingSemantics ⟨4, [10, 11], 0⟩ 5 [12]).1,
   (C8_readAutoPendingSemantics ⟨4, [10, 11], 0⟩ 5 [12]).2 (by decide)⟩

/-- C9: SetAutoTransmitData succeeds exactly when the payload is at most 16
bytes and the zero-fill count at most 127, in which case the pattern becomes
the requested one; for any larger payload or zero-fill it reports a
configuration error and leaves the engine's transmit pattern unchanged. -/
theorem C9_setAutoTransmitDataValidation (e : AutoEngineConfig)
    (d : List Nat) (z : Nat) :
    ((SetAutoTransmitData e d z).2 = none ↔ d.length ≤ 16 ∧ z ≤ 127) ∧
    (16 < d.length ∨ 127 < z →
      (SetAutoTransmitData e d z).2 = some ConfigError.configurationError ∧
      (SetAutoTransmitData e d z).1 = e) ∧
    (d.length ≤ 16 → z ≤ 127 →
      (SetAutoTransmitData e d z).1.pattern =
        some { dataToSend := d, zeroSize := z }) := by
  unfold SetAutoTransmitData
  by_cases hok : d.length ≤ 16 ∧ z ≤ 127
  · rw [if_pos hok]
    refine ⟨by simp [hok], ?_, fun _ _ => rfl⟩
    intro hbad
    omega
  · rw [if_neg hok]
    refine ⟨by simp [hok], fun _ => ⟨rfl, rfl⟩, ?_⟩
    intro h1 h2
    exact absurd ⟨h1, h2⟩ hok

/-- Witness for C9: a 17-byte payload is rejected and leaves the armed
pattern unchanged, while a 1-byte payload with zero-fill 3 is accepted and
becomes the pattern. -/
theorem C9_setAutoTransmitDataValidation_witness :
    ((SetAutoTransmitData ⟨none⟩ (List.replicate 17 0xAA) 3).2 =
        some ConfigError.configurationError ∧
      (SetAutoTransmitData ⟨none⟩ (List.replicate 17 0xAA) 3).1 = ⟨none⟩) ∧
    (SetAutoTransmitData ⟨none⟩ [0xAA] 3).1.pattern =
      some { dataToSend := [0xAA], zeroSize := 3 } :=
  ⟨(C9_setAutoTransmitDataValidation ⟨none⟩ (List.replicate 17 0xAA) 3).2.1
      (by decide),
   (C9_setAutoTransmitDataValidation ⟨none⟩ [0xAA] 3).2.2
      (by decide) (by decide)⟩

/-- C10: a Read with initiate false while the receive FIFO is empty and no
transfer is active returns an error rather than blocking or fabricating
data; a Read with initiate true pushes size zero bytes into the transmit
buffer, initiates a transfer, and returns the bytes the bus exchange
received. -/
theorem C10_readEmptyFifoErrors (busExchange : List Nat → List Nat)
    (size : Nat) (st : SpiPortState) :
    (st.receiveFifo = [] → st.activeTransfer = false →
      Read busExchange false size st = Except.error SpiError.readNoData) ∧
    (∀ rx st2, Read busExchange true size st = Except.ok (rx, st2) →
      st2.transmitQueue = st.transmitQueue ++ List.replicate size 0 ∧
      st2.transfersInitiated = st.transfersInitiated + 1 ∧
      rx = busExchange (List.replicate size 0)) := by
  constructor
  · intro h1 h2
    unfold Read
    rw [if_neg (by simp), if_pos ⟨h1, h2⟩]
  · intro rx st2 h
    unfold Read at h
    rw [if_pos rfl] at h
    simp only [Except.ok.injEq, Prod.mk.injEq] at h
    obtain ⟨hrx, hst⟩ := h
    subst hrx
    subst hst
    exact ⟨rfl, rfl, rfl⟩

/-- Witness for C10: on a port with an empty receive FIFO and no active
transfer, Read without initiate errors; Read with initiate on the same port
appends two zero bytes to the transmit queue, bumps the initiated-transfer
count, and returns what the bus exchanged. -/
theorem C10_readEmptyFifoErrors_witness :
    Read (fun l => l) false 2 ⟨[], [5], false, 0⟩ =
      Except.error SpiError.readNoData ∧
    ((⟨[], [5, 0, 0], false, 1⟩ : SpiPortState).transmitQueue =
        (⟨[], [5], false, 0⟩ : SpiPortState).transmitQueue ++
          List.replicate 2 0 ∧
      (⟨[], [5, 0, 0], false, 1⟩ : SpiPortState).transfersInitiated =
        (⟨[], [5], false, 0⟩ : SpiPortState).transfersInitiated + 1 ∧
      [0, 0] = (fun (l : List Nat) => l) (List.replicate 2 0)) :=
  ⟨(C10_readEmptyFifoErrors (fun l => l) 2 ⟨[], [5], false, 0⟩).1 rfl rfl,
   (C10_readEmptyFifoErrors (fun l => l) 2 ⟨[], [5], false, 0⟩).2
      [0, 0] ⟨[], [5, 0, 0], false, 1⟩ (by rfl)⟩

end FrcSPI
